import Mathlib

/-!
Shallow embedding of the tab5-webradio streaming core
(`src/unnamed/part_003`, first document: ring buffer, ICY metadata
extractor, HTTP event handler, MP3 frame synchronizer, prebuffer wait,
radio stream controller, spectrum accessor), together with theorems
settling the frozen claims about it.

Bytes are modelled as `Nat` (the C code never relies on 8-bit overflow in
the parts embedded here), byte arrays as `List Nat`, and the FreeRTOS
mutex acquisitions (`xSemaphoreTake` with a 100 ms bound) as an explicit
`lockOk : Bool` argument recording whether the take succeeded; the
timeout branch of each operation (returning 0 and leaving the buffer
untouched) is the `lockOk = false` branch.
-/

set_option maxRecDepth 40000

namespace WebRadio

/-! ## Ring buffer (`struct RingBuffer`, part_003 lines 31-126) -/

/-- Model of `struct RingBuffer`: the backing byte region `buf` (length
`size`), the write cursor, the read cursor and the byte count. -/
structure RingBuffer where
  size : Nat
  buf : List Nat
  writePos : Nat
  readPos : Nat
  dataAvailable : Nat
  deriving Repr, DecidableEq

/-- Copy loop of `RingBuffer::write`: store each byte at `writePos`,
advancing the cursor modulo `size`.  Returns the updated region and the
final cursor. -/
def writeLoop (buf : List Nat) (size wp : Nat) : List Nat → List Nat × Nat
  | [] => (buf, wp)
  | b :: rest => writeLoop (buf.set wp b) size ((wp + 1) % size) rest

/-- Copy loop of `RingBuffer::read`: fetch `n` bytes starting at `readPos`,
advancing the cursor modulo `size`.  Returns the bytes and the final
cursor. -/
def readLoop (buf : List Nat) (size rp : Nat) : Nat → List Nat × Nat
  | 0 => ([], rp)
  | n + 1 =>
    let b := buf.getD rp 0
    let r := readLoop buf size ((rp + 1) % size) n
    (b :: r.1, r.2)

/-- Model of `RingBuffer::write` (lines 75-92): `toWrite = min len
freeSpace` bytes are copied and that count is returned; on semaphore
timeout (`lockOk = false`) nothing happens and 0 is returned. -/
def RingBuffer.write (rb : RingBuffer) (lockOk : Bool) (data : List Nat) :
    RingBuffer × Nat :=
  if lockOk then
    let freeSpace := rb.size - rb.dataAvailable
    let toWrite := min data.length freeSpace
    let r := writeLoop rb.buf rb.size rb.writePos (data.take toWrite)
    ({ rb with buf := r.1, writePos := r.2,
               dataAvailable := rb.dataAvailable + toWrite }, toWrite)
  else (rb, 0)

/-- Model of `RingBuffer::read` (lines 94-110): `toRead = min len
dataAvailable` bytes are copied out and that count returned; on semaphore
timeout nothing happens, no bytes are produced and 0 is returned. -/
def RingBuffer.read (rb : RingBuffer) (lockOk : Bool) (len : Nat) :
    RingBuffer × List Nat × Nat :=
  if lockOk then
    let toRead := min len rb.dataAvailable
    let r := readLoop rb.buf rb.size rb.readPos toRead
    ({ rb with readPos := r.2, dataAvailable := rb.dataAvailable - toRead },
     r.1, toRead)
  else (rb, [], 0)

/-- Model of `RingBuffer::reset` (lines 65-73): cursors and count cleared,
region kept. -/
def RingBuffer.reset (rb : RingBuffer) : RingBuffer :=
  { rb with writePos := 0, readPos := 0, dataAvailable := 0 }

/-- Model of `RingBuffer::available` (lines 112-120) in the successful-lock
case. -/
def RingBuffer.available (rb : RingBuffer) : Nat := rb.dataAvailable

/-- A freshly initialised ring buffer of capacity `c`
(`RingBuffer::init`). -/
def initRB (c : Nat) : RingBuffer :=
  { size := c, buf := List.replicate c 0, writePos := 0, readPos := 0,
    dataAvailable := 0 }

/-- One buffer operation of a client sequence: a write (with its lock
outcome and payload), a read (with its lock outcome and requested
length), or a reset. -/
inductive BufOp where
  | write (lockOk : Bool) (data : List Nat)
  | read (lockOk : Bool) (len : Nat)
  | reset
  deriving Repr, DecidableEq

/-- Run a sequence of buffer operations, tallying the byte counts returned
by the write calls and by the read calls since the most recent reset. -/
def runOps (rb : RingBuffer) (w r : Nat) : List BufOp → RingBuffer × Nat × Nat
  | [] => (rb, w, r)
  | BufOp.write lk d :: ops =>
    let res := rb.write lk d
    runOps res.1 (w + res.2) r ops
  | BufOp.read lk n :: ops =>
    let res := rb.read lk n
    runOps res.1 w (r + res.2.2) ops
  | BufOp.reset :: ops => runOps rb.reset 0 0 ops

/-- Well-formedness of a ring buffer state: the region has the declared
capacity, the cursors are in range, the count never exceeds capacity, and
the write cursor sits `dataAvailable` bytes (modulo `size`) past the read
cursor.  This holds for every state the code can reach. -/
def WF (rb : RingBuffer) : Prop :=
  rb.buf.length = rb.size ∧ 0 < rb.size ∧ rb.dataAvailable ≤ rb.size ∧
  rb.writePos < rb.size ∧ rb.readPos < rb.size ∧
  rb.writePos = (rb.readPos + rb.dataAvailable) % rb.size

/-- Variant tally of `runOps` that follows the claim wording for C3
literally: the write/read byte totals are accumulated over the WHOLE
operation sequence, not restarted at `reset`.  The buffer itself evolves
exactly as in `runOps`. -/
def runOpsT (rb : RingBuffer) (w r : Nat) : List BufOp → RingBuffer × Nat × Nat
  | [] => (rb, w, r)
  | BufOp.write lk d :: ops =>
    let res := rb.write lk d
    runOpsT res.1 (w + res.2) r ops
  | BufOp.read lk n :: ops =>
    let res := rb.read lk n
    runOpsT res.1 w (r + res.2.2) ops
  | BufOp.reset :: ops => runOpsT rb.reset w r ops

/-! ## ICY metadata extractor (`http_event_handler` HTTP_EVENT_ON_DATA,
part_003 lines 208-273, and `parse_icy_metadata`, lines 152-173) -/

/-- Extractor state carried between chunks: `icyMetaInt` (the interval
`N` from the `icy-metaint` header), the countdown `bytesUntilMeta`, and
the last parsed `streamTitle` (bytes). -/
structure IcyState where
  icyMetaInt : Nat
  bytesUntilMeta : Nat
  streamTitle : List Nat
  deriving Repr, DecidableEq

/-- Byte content of the C literal passed to `strstr`,
`StreamTitle='` (13 bytes). -/
def streamTitleKey : List Nat :=
  [83, 116, 114, 101, 97, 109, 84, 105, 116, 108, 101, 61, 39]

/-- Index of the first occurrence of `pat` in `s` (the `strstr` offset). -/
def strstrIdx (pat : List Nat) : List Nat → Option Nat
  | [] => if List.take pat.length [] = pat then some 0 else none
  | b :: tl =>
    if (b :: tl).take pat.length = pat then some 0
    else (strstrIdx pat tl).map (fun k => k + 1)

/-- Index of the first occurrence of byte `c` in the list (the `strchr`
offset). -/
def strchrIdx (c : Nat) : List Nat → Option Nat
  | [] => none
  | b :: tl => if b = c then some 0 else (strchrIdx c tl).map (fun k => k + 1)

/-- C-string view of a byte region: everything before the first NUL.
`parse_icy_metadata` hands `strstr`/`strchr` a pointer into the chunk, so
they operate on the NUL-terminated prefix (ICY metadata frames are
NUL-padded to the L*16 boundary). -/
def cstr (s : List Nat) : List Nat := s.takeWhile (fun b => b != 0)

/-- Model of `parse_icy_metadata` (lines 152-173): find `StreamTitle='`,
take up to the next `0x27` quote, and store it as the title when its
length is strictly between 0 and 256; otherwise leave the state
unchanged. -/
def parse_icy_metadata (st : IcyState) (meta : List Nat) : IcyState :=
  let s := cstr meta
  match strstrIdx streamTitleKey s with
  | none => st
  | some i =>
    let afterKey := s.drop (i + streamTitleKey.length)
    match strchrIdx 39 afterKey with
    | none => st
    | some j =>
      if 0 < j ∧ j < 256 then { st with streamTitle := afterKey.take j }
      else st

/-- Fuelled version of the `while (dataPos < dataLen)` de-interleaving
loop of `http_event_handler` (lines 225-261).  Returns the updated
extractor state and the audio bytes passed to `ringBuffer.write` (in
order).  The fuel only bounds the recursion; `icyLoop` supplies
`data.length`, which always suffices because every iteration consumes at
least one byte. -/
def icyLoopF : Nat → IcyState → List Nat → IcyState × List Nat
  | 0, st, _ => (st, [])
  | _ + 1, st, [] => (st, [])
  | fuel + 1, st, d :: rest =>
    if 0 < st.bytesUntilMeta then
      let n := min (d :: rest).length st.bytesUntilMeta
      let r := icyLoopF fuel { st with bytesUntilMeta := st.bytesUntilMeta - n }
        ((d :: rest).drop n)
      (r.1, (d :: rest).take n ++ r.2)
    else
      let metaLen := d * 16
      if metaLen = 0 then
        icyLoopF fuel { st with bytesUntilMeta := st.icyMetaInt } rest
      else if metaLen ≤ rest.length then
        icyLoopF fuel
          { parse_icy_metadata st (rest.take metaLen) with
            bytesUntilMeta := st.icyMetaInt }
          (rest.drop metaLen)
      else
        ({ st with bytesUntilMeta := st.icyMetaInt }, [])

/-- Processing of one HTTP body chunk by the extractor (the
`s_radio.icyMetaInt > 0` branch of HTTP_EVENT_ON_DATA). -/
def icyLoop (st : IcyState) (data : List Nat) : IcyState × List Nat :=
  icyLoopF data.length st data

/-! ## Frame synchronizer (`audio_decode_task` scan, part_003 lines
585-657) -/

def PREBUFFER_SIZE : Nat := 64 * 1024

def SPECTRUM_BANDS : Nat := 32

/-- Header validity checks applied to three consecutive bytes: sync word
`0xFF`/top-3-bits, version ≠ reserved `01`, layer ≠ reserved `00`,
bitrate index ∉ {0, 15}, sample-rate index ≠ 3 (lines 602-627). -/
def validHeader3 (b0 b1 b2 : Nat) : Bool :=
  (b0 == 255) && ((b1 &&& 224) == 224) &&
  (((b1 >>> 3) &&& 3) != 1) && (((b1 >>> 1) &&& 3) != 0) &&
  (((b2 >>> 4) &&& 15) != 0) && (((b2 >>> 4) &&& 15) != 15) &&
  (((b2 >>> 2) &&& 3) != 3)

/-- The scan loop `for (i = 0; i < bytesRead - 3; i++)` with early break:
try offsets `i, i+1, ...` for `steps` steps. -/
def scanFrom (hb : List Nat) : Nat → Nat → Option Nat
  | _, 0 => none
  | i, steps + 1 =>
    if validHeader3 (hb.getD i 0) (hb.getD (i + 1) 0) (hb.getD (i + 2) 0) then
      some i
    else scanFrom hb (i + 1) steps

/-- First offset accepted by the scan (`syncOffset`, or `none` for the
sentinel -1).  The loop bound is `bytesRead - 3`, so the last offset
tried is `bytesRead - 4`. -/
def findSyncOffset (hb : List Nat) : Option Nat :=
  scanFrom hb 0 (hb.length - 3)

/-- Replay content of the header buffer after the scan (lines 639-656):
on a hit the buffer is shifted so the frame starts first; on a miss the
whole probe window is kept. -/
def syncWindow (hb : List Nat) : List Nat :=
  match findSyncOffset hb with
  | some i => hb.drop i
  | none => hb

/-! ## Prebuffer wait (`audio_decode_task`, part_003 lines 551-569) -/

/-- Outcome of the prebuffer phase of `audio_decode_task`. `playing`
stands for the `s_radio.state = RADIO_PLAYING` update followed by
attaching the ring-buffer byte source to the audio player. -/
inductive PrebufferOutcome where
  | playing
  | stoppedDuringPrebuffer
  | stillWaiting
  deriving Repr, DecidableEq

/-- The wait loop `while (available() < PREBUFFER_SIZE && !stopRequested)
vTaskDelay(50)` followed by the stop check and the transition to
RADIO_PLAYING, driven by the sequence of (available, stopRequested)
pairs the task observes, one per loop inspection. -/
def prebufferWait : List (Nat × Bool) → PrebufferOutcome
  | [] => PrebufferOutcome.stillWaiting
  | (avail, stop) :: obs =>
    if avail < PREBUFFER_SIZE ∧ stop = false then prebufferWait obs
    else if stop then PrebufferOutcome.stoppedDuringPrebuffer
    else PrebufferOutcome.playing

/-! ## Stream sessions and stale-task cancellation (part_003 lines
144, 178-217, 293-298, 813-827) -/

/-- The session fields involved in stale-producer cancellation:
`s_radio.streamId` (live generation id), the file-scope global
`s_http_task_stream_id` (assigned by whichever `http_stream_task`
started last), `s_radio.stopRequested`, the captured `myStreamId` values
of the HTTP tasks still running, and a log of buffer writes performed by
HTTP_EVENT_ON_DATA, each tagged with the writing task's captured id and
the live `streamId` at the moment of the write. -/
structure SessionState where
  streamId : Nat
  httpTaskStreamId : Nat
  stopRequested : Bool
  tasks : List Nat
  writes : List (Nat × Nat)
  deriving Repr, DecidableEq

/-- Scheduler-visible events of the session model. `startStream` is the
field effect of `HalEsp32::startRadioStream` (whose internal
`stopRadioStream` call sets `stopRequested` and waits with a 5 s bound;
on timeout the old task keeps running with its handle cleared, which the
code explicitly permits): `streamId` is incremented and `stopRequested`
cleared.  `httpTaskBegin` is the start of a spawned `http_stream_task`:
it captures `myStreamId = s_radio.streamId` and assigns the shared
global `s_http_task_stream_id`.  `onData c` is an HTTP_EVENT_ON_DATA
delivery to the running task whose captured id is `c`. -/
inductive SessionEvent where
  | startStream
  | httpTaskBegin
  | onData (captured : Nat)
  deriving Repr, DecidableEq

/-- One event step.  The guards of `onData` are exactly the checks of
`http_event_handler` lines 209-217: `stopRequested`, then
`s_http_task_stream_id != s_radio.streamId`.  Note that the handler
compares two globals; the invoking task's captured id `c` is not
consulted. -/
def sessionStep (s : SessionState) : SessionEvent → SessionState
  | SessionEvent.startStream =>
    { s with streamId := s.streamId + 1, stopRequested := false }
  | SessionEvent.httpTaskBegin =>
    { s with tasks := s.streamId :: s.tasks, httpTaskStreamId := s.streamId }
  | SessionEvent.onData c =>
    if c ∈ s.tasks then
      if s.stopRequested then s
      else if s.httpTaskStreamId ≠ s.streamId then s
      else { s with writes := (c, s.streamId) :: s.writes }
    else s

def runSession (s : SessionState) : List SessionEvent → SessionState
  | [] => s
  | e :: es => runSession (sessionStep s e) es

/-- Static initial values of the session fields. -/
def initSession : SessionState :=
  { streamId := 0, httpTaskStreamId := 0, stopRequested := false,
    tasks := [], writes := [] }

/-! ## Controller stop path (`HalEsp32::stopRadioStream` lines 854-904,
`HalEsp32::getRadioState` lines 774-786) -/

inductive RadioState where
  | stopped
  | buffering
  | playing
  | error
  deriving Repr, DecidableEq

/-- The globals read and written by the stop path: whether
`s_radio.mutex` was ever created, `s_radio.state`, the member cache
`HalEsp32::_radio_state`, the stop flag, the task handles (as liveness
booleans) and the two metadata fields the stop path clears. -/
structure RadioGlobal where
  mutexInit : Bool
  state : RadioState
  cachedState : RadioState
  stopRequested : Bool
  httpTask : Bool
  audioTask : Bool
  title : List Nat
  bufferPercent : Nat
  deriving Repr, DecidableEq

/-- Model of `HalEsp32::getRadioState`: Stopped when the radio was never
initialised (no mutex); otherwise `s_radio.state` under the lock, or the
cached `_radio_state` when the 100 ms lock acquisition times out. -/
def getRadioState (g : RadioGlobal) (lockOk : Bool) : RadioState :=
  if g.mutexInit = false then RadioState.stopped
  else if lockOk then g.state
  else g.cachedState

/-- Model of `HalEsp32::stopRadioStream`: set the stop flag, wait
(bounded) for both tasks and clear their handles either way, set
`s_radio.state` to RADIO_STOPPED when the mutex exists, set
`_radio_state`, and clear the title and buffer-percent metadata. -/
def stopRadioStream (g : RadioGlobal) : RadioGlobal :=
  { g with stopRequested := true,
           httpTask := false, audioTask := false,
           state := if g.mutexInit then RadioState.stopped else g.state,
           cachedState := RadioState.stopped,
           title := [], bufferPercent := 0 }

/-- Static initial values: no mutex, everything stopped and clear. -/
def initRadioGlobal : RadioGlobal :=
  { mutexInit := false, state := RadioState.stopped,
    cachedState := RadioState.stopped, stopRequested := false,
    httpTask := false, audioTask := false, title := [], bufferPercent := 0 }

/-! ## Spectrum accessor (`HalEsp32::getRadioSpectrum`, part_003 lines
906-910) -/

/-- Model of `getRadioSpectrum(spectrum, len)`: `memcpy` of
`copyLen = min len SPECTRUM_BANDS` bytes from the band array into the
caller's buffer `out`, whose remaining cells stay untouched. -/
def getRadioSpectrum (spectrum out : List Nat) (len : Nat) : List Nat :=
  let copyLen := min len SPECTRUM_BANDS
  spectrum.take copyLen ++ out.drop copyLen

/-! ## Concrete streams used by the claim instances -/

/-- 100 distinct audio bytes. -/
def audio100 : List Nat := (List.range 100).map (fun k => k + 1)

/-- Title bytes of `A - B`. -/
def titleAB : List Nat := [65, 32, 45, 32, 66]

/-- A 32-byte ICY metadata frame: `StreamTitle='A - B';` NUL-padded. -/
def metaFrameAB : List Nat :=
  streamTitleKey ++ titleAB ++ [39, 59] ++ List.replicate 12 0

/-- Synthetic stream with icy-metaint = 100: 100 audio bytes, the length
byte L = 2, the 32 metadata bytes, then two more audio bytes. -/
def icyStream100 : List Nat := audio100 ++ [2] ++ metaFrameAB ++ [201, 202]

/-- Probe window of 37 junk bytes followed by a valid MP3 frame header
`FF FB 90 64`. -/
def junk37Window : List Nat := List.replicate 37 0 ++ [255, 251, 144, 100]

/-- Probe window whose only valid header pattern starts 3 bytes before
the end of the window. -/
def tailHeaderWindow : List Nat := [0, 0, 0, 0, 0, 255, 251, 144]

theorem writeLoop_length (d : List Nat) (buf : List Nat) (size wp : Nat) :
    (writeLoop buf size wp d).1.length = buf.length := by
  induction d generalizing buf wp with
  | nil => rfl
  | cons b rest ih => simpa [writeLoop] using ih (buf.set wp b) ((wp + 1) % size)

theorem writeLoop_endPos (d : List Nat) (buf : List Nat) (size wp : Nat)
    (hs : 0 < size) (hw : wp < size) :
    (writeLoop buf size wp d).2 = (wp + d.length) % size := by
  induction d generalizing buf wp with
  | nil => simp [writeLoop, Nat.mod_eq_of_lt hw]
  | cons b rest ih =>
    rw [writeLoop, ih (buf.set wp b) ((wp + 1) % size) (Nat.mod_lt _ hs),
      Nat.mod_add_mod, List.length_cons]
    congr 1
    omega

theorem readLoop_endPos (n : Nat) (buf : List Nat) (size rp : Nat)
    (hs : 0 < size) (hr : rp < size) :
    (readLoop buf size rp n).2 = (rp + n) % size := by
  induction n generalizing rp with
  | zero => simp [readLoop, Nat.mod_eq_of_lt hr]
  | succ m ih =>
    show (readLoop buf size ((rp + 1) % size) m).2 = _
    rw [ih ((rp + 1) % size) (Nat.mod_lt _ hs), Nat.mod_add_mod]
    congr 1
    omega

theorem writeLoop_untouched (d : List Nat) (buf : List Nat) (size wp q : Nat)
    (hs : 0 < size) (hw : wp < size)
    (h : ∀ i, i < d.length → (wp + i) % size ≠ q) :
    (writeLoop buf size wp d).1.getD q 0 = buf.getD q 0 := by
  induction d generalizing buf wp with
  | nil => rfl
  | cons b rest ih =>
    rw [writeLoop, ih (buf.set wp b) ((wp + 1) % size) (Nat.mod_lt _ hs)]
    · have hwq : wp ≠ q := by
        have := h 0 (by simp)
        simpa [Nat.mod_eq_of_lt hw] using this
      simp [List.getD_eq_getD_get?, List.get?_eq_getElem?,
        List.getElem?_set_ne hwq]
    · intro i hi
      have := h (i + 1) (by simpa using Nat.succ_lt_succ hi)
      rw [Nat.mod_add_mod]
      convert this using 2
      omega

theorem mod_add_ne (size wp m : Nat) (hw : wp < size) (hm : 0 < m)
    (hms : m < size) : (wp + m) % size ≠ wp := by
  rcases Nat.lt_or_ge (wp + m) size with h | h
  · rw [Nat.mod_eq_of_lt h]; omega
  · rw [Nat.mod_eq_sub_mod h, Nat.mod_eq_of_lt (by omega)]; omega

/-- Core round-trip fact: writing `d` starting at cursor `wp` and then
reading `d.length` bytes starting at the same cursor recovers `d`,
provided `d` fits in the region. -/
theorem readLoop_writeLoop (d : List Nat) (buf : List Nat) (size wp : Nat)
    (hb : buf.length = size) (hs : 0 < size) (hw : wp < size)
    (hd : d.length ≤ size) :
    (readLoop (writeLoop buf size wp d).1 size wp d.length).1 = d := by
  induction d generalizing buf wp with
  | nil => rfl
  | cons b rest ih =>
    have hhead :
        (writeLoop (buf.set wp b) size ((wp + 1) % size) rest).1.getD wp 0 = b := by
      rw [writeLoop_untouched rest (buf.set wp b) size ((wp + 1) % size) wp hs
        (Nat.mod_lt _ hs)]
      · have hwl : wp < buf.length := by rw [hb]; exact hw
        simp [List.getD_eq_getD_get?, List.get?_eq_getElem?,
          List.getElem?_set_self hwl]
      · intro i hi
        rw [Nat.mod_add_mod]
        have h1 : 0 < 1 + i := by omega
        have h2 : 1 + i < size := by simp at hd; omega
        have := mod_add_ne size wp (1 + i) hw h1 h2
        convert this using 2
        omega
    have htail := ih (buf.set wp b) ((wp + 1) % size)
      (by rw [List.length_set]; exact hb) (Nat.mod_lt _ hs)
      (by simp at hd; omega)
    simp only [writeLoop, List.length_cons, readLoop]
    rw [hhead, htail]

/-- Preservation of well-formedness, together with the tally equation
`written-since-reset = read-since-reset + available`, along a run of
buffer operations. -/
theorem runOps_inv (ops : List BufOp) (rb : RingBuffer) (w r : Nat)
    (hwf : WF rb) (ht : w = r + rb.dataAvailable) :
    WF (runOps rb w r ops).1 ∧
      (runOps rb w r ops).2.1 = (runOps rb w r ops).2.2 +
        (runOps rb w r ops).1.dataAvailable := by
  induction ops generalizing rb w r with
  | nil => exact ⟨hwf, ht⟩
  | cons op ops ih =>
    obtain ⟨hb, hs, ha, hwp, hrp, hinv⟩ := hwf
    cases op with
    | write lk d =>
      cases lk with
      | false => exact ih rb w r ⟨hb, hs, ha, hwp, hrp, hinv⟩ ht
      | true =>
        rw [runOps]
        apply ih
        · refine ⟨?_, hs, ?_, ?_, hrp, ?_⟩
          · simp [RingBuffer.write, writeLoop_length, hb]
          · simp only [RingBuffer.write, if_pos]
            omega
          · simp only [RingBuffer.write, if_pos]
            rw [writeLoop_endPos _ _ _ _ hs hwp]
            exact Nat.mod_lt _ hs
          · simp only [RingBuffer.write, if_pos]
            rw [writeLoop_endPos _ _ _ _ hs hwp, List.length_take, hinv,
              Nat.mod_add_mod]
            congr 1
            omega
        · simp only [RingBuffer.write, if_pos]
          omega
    | read lk n =>
      cases lk with
      | false => exact ih rb w r ⟨hb, hs, ha, hwp, hrp, hinv⟩ ht
      | true =>
        rw [runOps]
        apply ih
        · refine ⟨hb, hs, ?_, ?_, ?_, ?_⟩
          · simp only [RingBuffer.read, if_pos]
            omega
          · simpa [RingBuffer.read] using hwp
          · simp only [RingBuffer.read, if_pos]
            rw [readLoop_endPos _ _ _ _ hs hrp]
            exact Nat.mod_lt _ hs
          · simp only [RingBuffer.read, if_pos]
            rw [readLoop_endPos _ _ _ _ hs hrp, Nat.mod_add_mod, hinv]
            congr 1
            omega
        · simp only [RingBuffer.read, if_pos]
          omega
    | reset =>
      rw [runOps]
      apply ih
      · exact ⟨hb, hs, by simp [RingBuffer.reset],
          by simpa [RingBuffer.reset] using hs,
          by simpa [RingBuffer.reset] using hs,
          by simp [RingBuffer.reset]⟩
      · simp [RingBuffer.reset]

/-- The fuel of `icyLoopF` is irrelevant as long as it covers the chunk
length: every iteration of the de-interleaving loop consumes at least
one byte. -/
theorem icyLoopF_congr (f1 : Nat) :
    ∀ (f2 : Nat) (st : IcyState) (data : List Nat),
      data.length ≤ f1 → data.length ≤ f2 →
      icyLoopF f1 st data = icyLoopF f2 st data := by
  induction f1 with
  | zero =>
    intro f2 st data h1 h2
    have hd : data = [] := List.eq_nil_of_length_eq_zero (by omega)
    subst hd
    cases f2 <;> rfl
  | succ f ih =>
    intro f2 st data h1 h2
    cases data with
    | nil => cases f2 <;> rfl
    | cons d rest =>
      cases f2 with
      | zero => simp only [List.length_cons] at h2; omega
      | succ g =>
        simp only [List.length_cons] at h1 h2
        simp only [icyLoopF]
        by_cases hb : 0 < st.bytesUntilMeta
        · simp only [if_pos hb]
          have hl1 : ((d :: rest).drop
              (min (d :: rest).length st.bytesUntilMeta)).length ≤ f := by
            simp only [List.length_drop, List.length_cons]
            omega
          have hl2 : ((d :: rest).drop
              (min (d :: rest).length st.bytesUntilMeta)).length ≤ g := by
            simp only [List.length_drop, List.length_cons]
            omega
          rw [ih g _ _ hl1 hl2]
        · simp only [if_neg hb]
          by_cases hm : d * 16 = 0
          · simp only [if_pos hm]
            exact ih g _ _ (by omega) (by omega)
          · simp only [if_neg hm]
            by_cases hfit : d * 16 ≤ rest.length
            · simp only [if_pos hfit]
              refine ih g _ _ ?_ ?_ <;>
                simp only [List.length_drop] <;> omega
            · simp only [if_neg hfit]

theorem runOps_size (ops : List BufOp) :
    ∀ (rb : RingBuffer) (w r : Nat), (runOps rb w r ops).1.size = rb.size := by
  induction ops with
  | nil => intro rb w r; rfl
  | cons op ops ih =>
    intro rb w r
    cases op with
    | write lk d =>
      rw [runOps, ih]
      cases lk <;> simp [RingBuffer.write]
    | read lk n =>
      rw [runOps, ih]
      cases lk <;> simp [RingBuffer.read]
    | reset => rw [runOps, ih]; rfl

/-- C2 (code bug).

The spec and the code's own comments (`"Capture the stream ID for this
task - used to ignore data from stale tasks"`, `"Check if this HTTP task
is still the current one"`) promise that a data-handler invocation
belonging to a superseded session never writes into the buffer.  But
`http_event_handler` compares the shared global `s_http_task_stream_id`
— overwritten by whichever `http_stream_task` started most recently —
against `s_radio.streamId`; the invoking task's captured `myStreamId` is
never consulted.  After the trace
start#1, task#1 begins, start#2 (the internal stop times out because
task#1 is blocked in the network stack, a case the code explicitly
tolerates), task#2 begins, then a late chunk arrives on task#1:
both guards pass (`stopRequested = false`,
`s_http_task_stream_id = 2 = streamId`), and task#1 — captured id 1 —
writes into the buffer now owned by session 2, although `1 ≠ 2`. -/
theorem stale_producer_write_bug :
    (runSession initSession
      [SessionEvent.startStream, SessionEvent.httpTaskBegin,
       SessionEvent.startStream, SessionEvent.httpTaskBegin,
       SessionEvent.onData 1]).writes = [(1, 2)] ∧
    (runSession initSession
      [SessionEvent.startStream, SessionEvent.httpTaskBegin,
       SessionEvent.startStream, SessionEvent.httpTaskBegin,
       SessionEvent.onData 1]).streamId = 2 ∧
    (1 : Nat) ≠ 2 := by
  decide

/-- C3 counterexample: the claim counts write/read totals across the
whole operation sequence, `reset` included.  Writing one byte and then
resetting leaves `available() = 0` while total-written − total-read = 1,
because `RingBuffer::reset` zeroes `dataAvailable` without any
compensating read. -/
theorem buffer_totals_counterexample :
    (runOpsT (initRB 4) 0 0 [BufOp.write true [9], BufOp.reset]).1.available = 0 ∧
    (runOpsT (initRB 4) 0 0 [BufOp.write true [9], BufOp.reset]).2.1 = 1 ∧
    (runOpsT (initRB 4) 0 0 [BufOp.write true [9], BufOp.reset]).2.2 = 0 ∧
    (runOpsT (initRB 4) 0 0 [BufOp.write true [9], BufOp.reset]).1.available ≠
      (runOpsT (initRB 4) 0 0 [BufOp.write true [9], BufOp.reset]).2.1 -
      (runOpsT (initRB 4) 0 0 [BufOp.write true [9], BufOp.reset]).2.2 := by
  decide

/-- C3 (amended): for every sequence of write, read and reset operations
on a buffer of capacity `c > 0`, after the run `0 ≤ available() ≤ c`,
`available()` equals the bytes written minus the bytes read SINCE THE
MOST RECENT RESET (or since initialisation), and both cursors stay below
`c` (they wrap modulo `c`). -/
theorem buffer_invariant_since_reset (c : Nat) (ops : List BufOp)
    (hc : 0 < c) :
    (runOps (initRB c) 0 0 ops).1.available ≤ c ∧
    (runOps (initRB c) 0 0 ops).2.2 ≤ (runOps (initRB c) 0 0 ops).2.1 ∧
    (runOps (initRB c) 0 0 ops).1.available =
      (runOps (initRB c) 0 0 ops).2.1 - (runOps (initRB c) 0 0 ops).2.2 ∧
    (runOps (initRB c) 0 0 ops).1.writePos < c ∧
    (runOps (initRB c) 0 0 ops).1.readPos < c := by
  have hwf : WF (initRB c) := by
    refine ⟨by simp [initRB], hc, by simp [initRB], ?_, ?_, ?_⟩ <;>
      simp [initRB, hc]
  obtain ⟨⟨_, _, ha, hwp, hrp, _⟩, ht⟩ := runOps_inv ops (initRB c) 0 0 hwf rfl
  have hsz : (runOps (initRB c) 0 0 ops).1.size = c := runOps_size ops (initRB c) 0 0
  rw [hsz] at ha hwp hrp
  simp only [RingBuffer.available]
  exact ⟨ha, by omega, by omega, hwp, hrp⟩

/-- C3 witness: a concrete run containing a write, a read and a reset. -/
theorem buffer_invariant_since_reset_witness :
    0 < 4 ∧
    ((runOps (initRB 4) 0 0
        [BufOp.write true [1, 2], BufOp.read true 1, BufOp.reset,
         BufOp.write true [7]]).1.available ≤ 4 ∧
      (runOps (initRB 4) 0 0
        [BufOp.write true [1, 2], BufOp.read true 1, BufOp.reset,
         BufOp.write true [7]]).2.2 ≤
        (runOps (initRB 4) 0 0
          [BufOp.write true [1, 2], BufOp.read true 1, BufOp.reset,
           BufOp.write true [7]]).2.1 ∧
      (runOps (initRB 4) 0 0
        [BufOp.write true [1, 2], BufOp.read true 1, BufOp.reset,
         BufOp.write true [7]]).1.available =
        (runOps (initRB 4) 0 0
          [BufOp.write true [1, 2], BufOp.read true 1, BufOp.reset,
           BufOp.write true [7]]).2.1 -
        (runOps (initRB 4) 0 0
          [BufOp.write true [1, 2], BufOp.read true 1, BufOp.reset,
           BufOp.write true [7]]).2.2 ∧
      (runOps (initRB 4) 0 0
        [BufOp.write true [1, 2], BufOp.read true 1, BufOp.reset,
         BufOp.write true [7]]).1.writePos < 4 ∧
      (runOps (initRB 4) 0 0
        [BufOp.write true [1, 2], BufOp.read true 1, BufOp.reset,
         BufOp.write true [7]]).1.readPos < 4) :=
  ⟨by decide,
   buffer_invariant_since_reset 4
     [BufOp.write true [1, 2], BufOp.read true 1, BufOp.reset,
      BufOp.write true [7]] (by decide)⟩

/-- C4 counterexample: the claim only requires `b` to fit in the
remaining free space, but the buffer is FIFO.  With one unread byte 9
already buffered (capacity 4, free space 3), writing `b = [5]` and
reading back one byte returns the older byte `[9]`, not `b`. -/
theorem roundtrip_counterexample :
    ([5] : List Nat).length ≤
      ((initRB 4).write true [9]).1.size -
        ((initRB 4).write true [9]).1.dataAvailable ∧
    ((((initRB 4).write true [9]).1.write true [5]).1.read true 1).2.1 = [9] ∧
    ((((initRB 4).write true [9]).1.write true [5]).1.read true 1).2.1 ≠ [5] := by
  decide

/-- C4 (amended): on an EMPTY well-formed buffer, writing a byte
sequence that fits in the capacity and then immediately reading back the
same length returns exactly those bytes, byte-identical and in order.
(When unread bytes remain, the read returns the oldest buffered bytes
first — FIFO — so the claim's free-space-only precondition is too
weak.) -/
theorem roundtrip_from_empty (rb : RingBuffer) (data : List Nat)
    (hwf : WF rb) (h0 : rb.dataAvailable = 0) (hlen : data.length ≤ rb.size) :
    ((rb.write true data).1.read true data.length).2.1 = data := by
  obtain ⟨hb, hs, _, hwp, hrp, hinv⟩ := hwf
  have hwr : rb.writePos = rb.readPos := by
    rw [hinv, h0, Nat.add_zero, Nat.mod_eq_of_lt hrp]
  have htw : min data.length rb.size = data.length := by omega
  simp only [RingBuffer.write, RingBuffer.read, if_pos, h0, Nat.sub_zero,
    htw, Nat.zero_add, List.take_length, Nat.min_self]
  rw [hwr]
  exact readLoop_writeLoop data rb.buf rb.size rb.readPos hb hs hrp hlen

/-- C4 witness: a concrete empty buffer of capacity 3 round-trips three
bytes. -/
theorem roundtrip_from_empty_witness :
    WF (initRB 3) ∧ (initRB 3).dataAvailable = 0 ∧
    ([10, 20, 30] : List Nat).length ≤ (initRB 3).size ∧
    (((initRB 3).write true [10, 20, 30]).1.read true
      ([10, 20, 30] : List Nat).length).2.1 = [10, 20, 30] :=
  ⟨by unfold WF; decide, by decide, by decide,
   roundtrip_from_empty (initRB 3) [10, 20, 30] (by unfold WF; decide)
     (by decide) (by decide)⟩

/-- C5: `RingBuffer::write` copies and returns exactly
`min len (capacity − available)` bytes — fewer than requested when the
buffer is full, never an error — and `RingBuffer::read` copies and
returns exactly `min max_len available` bytes, returning 0 bytes and no
data on an empty buffer; when the bounded (100 ms) lock acquisition
times out, either operation returns the no-progress result 0 with the
buffer unchanged instead of blocking indefinitely. -/
theorem ringbuffer_write_read_counts (rb : RingBuffer) (data : List Nat)
    (len : Nat) :
    (rb.write true data).2 = min data.length (rb.size - rb.dataAvailable) ∧
    rb.write false data = (rb, 0) ∧
    (rb.read true len).2.2 = min len rb.dataAvailable ∧
    (rb.dataAvailable = 0 →
      (rb.read true len).2.2 = 0 ∧ (rb.read true len).2.1 = []) ∧
    rb.read false len = (rb, [], 0) := by
  refine ⟨rfl, rfl, rfl, ?_, rfl⟩
  intro h0
  simp [RingBuffer.read, h0, readLoop]

/-- C5 witness: reading from a concrete empty buffer returns 0 bytes. -/
theorem ringbuffer_write_read_counts_witness :
    (initRB 2).dataAvailable = 0 ∧
    (((initRB 2).read true 5).2.2 = 0 ∧ ((initRB 2).read true 5).2.1 = []) :=
  ⟨by decide,
   (ringbuffer_write_read_counts (initRB 2) [] 5).2.2.2.1 (by decide)⟩

/-- C8: the prebuffer wait of `audio_decode_task` transitions to Playing
(and attaches the consumer to the decoder) exactly when an inspection
sees `available() ≥ PREBUFFER_SIZE` with no stop requested; while every
inspection sees fewer buffered bytes than the threshold, the outcome is
never Playing. -/
theorem prebuffer_transition :
    (∀ (pre rest : List (Nat × Bool)) (a : Nat),
      (∀ x ∈ pre, x.1 < PREBUFFER_SIZE ∧ x.2 = false) →
      PREBUFFER_SIZE ≤ a →
      prebufferWait (pre ++ (a, false) :: rest) = PrebufferOutcome.playing) ∧
    (∀ obs : List (Nat × Bool),
      (∀ x ∈ obs, x.1 < PREBUFFER_SIZE) →
      prebufferWait obs ≠ PrebufferOutcome.playing) := by
  constructor
  · intro pre rest a
    induction pre with
    | nil =>
      intro _ ha
      simp only [List.nil_append, prebufferWait]
      rw [if_neg (fun hcl => absurd hcl.1 (by omega))]
      rfl
    | cons x xs ih =>
      intro hpre ha
      obtain ⟨h1, h2⟩ := hpre x (by simp)
      obtain ⟨av, st⟩ := x
      simp only [List.cons_append, prebufferWait]
      rw [if_pos ⟨h1, h2⟩]
      exact ih (fun y hy => hpre y (by simp [hy])) ha
  · intro obs
    induction obs with
    | nil => intro _; simp [prebufferWait]
    | cons x xs ih =>
      intro hobs
      obtain ⟨av, st⟩ := x
      have h1 : av < PREBUFFER_SIZE := hobs (av, st) (by simp)
      cases st with
      | false =>
        simp only [prebufferWait]
        rw [if_pos ⟨h1, trivial⟩]
        exact ih (fun y hy => hobs y (by simp [hy]))
      | true =>
        simp only [prebufferWait]
        rw [if_neg (fun hcl => by simpa using hcl.2)]
        simp

/-- C8 witness: one below-threshold inspection followed by one at the
threshold yields Playing, and a run of below-threshold inspections never
yields Playing. -/
theorem prebuffer_transition_witness :
    ((∀ x ∈ [((0 : Nat), false)], x.1 < PREBUFFER_SIZE ∧ x.2 = false) ∧
      PREBUFFER_SIZE ≤ PREBUFFER_SIZE ∧
      prebufferWait ([((0 : Nat), false)] ++ (PREBUFFER_SIZE, false) :: []) =
        PrebufferOutcome.playing) ∧
    ((∀ x ∈ [((5 : Nat), false)], x.1 < PREBUFFER_SIZE) ∧
      prebufferWait [((5 : Nat), false)] ≠ PrebufferOutcome.playing) :=
  ⟨⟨by decide, by decide,
    prebuffer_transition.1 [((0 : Nat), false)] [] PREBUFFER_SIZE
      (by decide) (by decide)⟩,
   ⟨by decide, prebuffer_transition.2 [((5 : Nat), false)] (by decide)⟩⟩

/-- C9: `stopRadioStream` is idempotent and safe from any state,
including before the radio was ever initialised: afterwards
`getRadioState` reports Stopped (whether or not the state lock
acquisition succeeds), the title and buffer-percent metadata are
cleared, a second consecutive stop changes nothing at all, and a stop
issued before any start leaves the observable state exactly as it was
(Stopped). -/
theorem stop_idempotent (g : RadioGlobal) (lockOk : Bool) :
    getRadioState (stopRadioStream g) lockOk = RadioState.stopped ∧
    (stopRadioStream g).title = [] ∧
    (stopRadioStream g).bufferPercent = 0 ∧
    stopRadioStream (stopRadioStream g) = stopRadioStream g ∧
    getRadioState (stopRadioStream initRadioGlobal) lockOk =
      getRadioState initRadioGlobal lockOk := by
  refine ⟨?_, rfl, rfl, ?_, ?_⟩
  · cases hg : g.mutexInit <;> cases lockOk <;>
      simp [getRadioState, stopRadioStream, hg]
  · cases hg : g.mutexInit <;> simp [stopRadioStream, hg]
  · cases lockOk <;> rfl

/-- C10: `getRadioSpectrum(out, len)` copies exactly `min len 32` bytes
of the 32-band spectrum into the caller's buffer: positions below
`min len 32` receive the corresponding band values and every position at
or above `min len 32` (in particular everything at index ≥ len, and
everything at index ≥ 32 when len > 32) keeps its previous content, so
the call never writes outside the caller-declared length. -/
theorem spectrum_copy (spec out : List Nat) (len : Nat)
    (hs : spec.length = 32) (ho : min len 32 ≤ out.length) :
    (getRadioSpectrum spec out len).length = out.length ∧
    (∀ i, i < min len 32 →
      (getRadioSpectrum spec out len).getD i 0 = spec.getD i 0) ∧
    (∀ i, min len 32 ≤ i →
      (getRadioSpectrum spec out len).getD i 0 = out.getD i 0) := by
  have hlen : (spec.take (min len 32)).length = min len 32 := by
    rw [List.length_take]
    omega
  refine ⟨?_, ?_, ?_⟩
  · simp only [getRadioSpectrum, SPECTRUM_BANDS]
    rw [List.length_append, hlen, List.length_drop]
    omega
  · intro i hi
    simp only [getRadioSpectrum, SPECTRUM_BANDS]
    rw [List.getD_eq_getD_get?, List.get?_eq_getElem?,
      List.getElem?_append_left (by rw [hlen]; exact hi),
      List.getElem?_take_of_lt hi, ← List.get?_eq_getElem?,
      ← List.getD_eq_getD_get?]
  · intro i hi
    simp only [getRadioSpectrum, SPECTRUM_BANDS]
    rw [List.getD_eq_getD_get?, List.get?_eq_getElem?,
      List.getElem?_append_right (by rw [hlen]; exact hi),
      hlen, List.getElem?_drop]
    have hidx : min len 32 + (i - min len 32) = i := by omega
    rw [hidx, ← List.get?_eq_getElem?, ← List.getD_eq_getD_get?]

/-- C10 witness: a 32-band spectrum copied into a 5-byte caller buffer
with len = 3. -/
theorem spectrum_copy_witness :
    (List.range 32).length = 32 ∧ min 3 32 ≤ (List.replicate 5 7).length ∧
    ((getRadioSpectrum (List.range 32) (List.replicate 5 7) 3).length =
        (List.replicate 5 7).length ∧
      (∀ i, i < min 3 32 →
        (getRadioSpectrum (List.range 32) (List.replicate 5 7) 3).getD i 0 =
          (List.range 32).getD i 0) ∧
      (∀ i, min 3 32 ≤ i →
        (getRadioSpectrum (List.range 32) (List.replicate 5 7) 3).getD i 0 =
          (List.replicate 5 7).getD i 0)) :=
  ⟨by decide, by decide,
   spectrum_copy (List.range 32) (List.replicate 5 7) 3 (by decide) (by decide)⟩

theorem scanFrom_some (hb : List Nat) (steps : Nat) :
    ∀ i k, scanFrom hb i steps = some k →
      i ≤ k ∧ k < i + steps ∧
      validHeader3 (hb.getD k 0) (hb.getD (k + 1) 0) (hb.getD (k + 2) 0) = true ∧
      ∀ j, i ≤ j → j < k →
        validHeader3 (hb.getD j 0) (hb.getD (j + 1) 0) (hb.getD (j + 2) 0) = false := by
  induction steps with
  | zero => intro i k h; simp [scanFrom] at h
  | succ s ih =>
    intro i k h
    by_cases hv : validHeader3 (hb.getD i 0) (hb.getD (i + 1) 0)
        (hb.getD (i + 2) 0) = true
    · simp only [scanFrom, if_pos hv, Option.some.injEq] at h
      subst h
      exact ⟨le_refl _, by omega, hv, fun j hj1 hj2 => absurd hj1 (by omega)⟩
    · simp only [scanFrom, if_neg hv] at h
      obtain ⟨h1, h2, h3, h4⟩ := ih (i + 1) k h
      refine ⟨by omega, by omega, h3, ?_⟩
      intro j hj1 hj2
      rcases Nat.eq_or_lt_of_le hj1 with heq | hlt
      · subst heq
        simpa using hv
      · exact h4 j (by omega) hj2

theorem scanFrom_none (hb : List Nat) (steps : Nat) :
    ∀ i, scanFrom hb i steps = none →
      ∀ j, i ≤ j → j < i + steps →
        validHeader3 (hb.getD j 0) (hb.getD (j + 1) 0) (hb.getD (j + 2) 0) = false := by
  induction steps with
  | zero => intro i _ j hj1 hj2; omega
  | succ s ih =>
    intro i h j hj1 hj2
    by_cases hv : validHeader3 (hb.getD i 0) (hb.getD (i + 1) 0)
        (hb.getD (i + 2) 0) = true
    · simp only [scanFrom, if_pos hv] at h
      exact absurd h (by simp)
    · rcases Nat.eq_or_lt_of_le hj1 with heq | hlt
      · subst heq
        simpa using hv
      · simp only [scanFrom, if_neg hv] at h
        exact ih (i + 1) h j (by omega) (by omega)

/-- C6 counterexample: the scan loop runs `i < bytesRead - 3`, so the
last offset it tries is `bytesRead - 4`.  In an 8-byte probe window
whose valid header pattern `FF FB 90` starts at offset 5 = 8 − 3 (all
three checked bytes lie inside the window), the claim demands
`syncOffset = 5` and a replay starting there, but the code finds
nothing and keeps the entire window as the replay content. -/
theorem sync_tail_header_counterexample :
    validHeader3 (tailHeaderWindow.getD 5 0) (tailHeaderWindow.getD 6 0)
      (tailHeaderWindow.getD 7 0) = true ∧
    tailHeaderWindow.length = 8 ∧
    findSyncOffset tailHeaderWindow = none ∧
    syncWindow tailHeaderWindow = tailHeaderWindow ∧
    syncWindow tailHeaderWindow ≠ tailHeaderWindow.drop 5 := by
  decide

/-- C6 (amended): the synchronizer returns the first offset
`i < probeLen − 3` (i.e. `i ≤ probeLen − 4`; a pattern starting in the
final three bytes is not examined) passing all header checks — sync
word, non-reserved version and layer, bitrate index ∉ {0, 15},
sample-rate index ≠ 3 — and the replay content then begins exactly at
that offset with earlier bytes discarded (37 junk bytes before a valid
header yield syncOffset = 37); when no examined offset passes, the
entire probe window becomes the replay content. -/
theorem sync_scan_correct :
    (∀ (hb : List Nat) (i : Nat), findSyncOffset hb = some i →
      i < hb.length - 3 ∧
      validHeader3 (hb.getD i 0) (hb.getD (i + 1) 0) (hb.getD (i + 2) 0) = true ∧
      (∀ j, j < i →
        validHeader3 (hb.getD j 0) (hb.getD (j + 1) 0) (hb.getD (j + 2) 0) = false) ∧
      syncWindow hb = hb.drop i) ∧
    (∀ hb : List Nat, findSyncOffset hb = none →
      (∀ j, j < hb.length - 3 →
        validHeader3 (hb.getD j 0) (hb.getD (j + 1) 0) (hb.getD (j + 2) 0) = false) ∧
      syncWindow hb = hb) ∧
    (findSyncOffset junk37Window = some 37 ∧
      syncWindow junk37Window = junk37Window.drop 37) := by
  refine ⟨?_, ?_, by decide, by decide⟩
  · intro hb i h
    have h' : scanFrom hb 0 (hb.length - 3) = some i := h
    obtain ⟨_, h2, h3, h4⟩ := scanFrom_some hb (hb.length - 3) 0 i h'
    refine ⟨by omega, h3, fun j hj => h4 j (Nat.zero_le j) hj, ?_⟩
    simp [syncWindow, h]
  · intro hb h
    have h' : scanFrom hb 0 (hb.length - 3) = none := h
    refine ⟨fun j hj => scanFrom_none hb (hb.length - 3) 0 h' j (Nat.zero_le j)
      (by omega), ?_⟩
    simp [syncWindow, h]

/-- C6 witness: the 37-junk window instantiates the some-branch and a
3-byte window (loop bound 0) instantiates the none-branch. -/
theorem sync_scan_correct_witness :
    (findSyncOffset junk37Window = some 37 ∧
      (37 < junk37Window.length - 3 ∧
        validHeader3 (junk37Window.getD 37 0) (junk37Window.getD 38 0)
          (junk37Window.getD 39 0) = true ∧
        (∀ j, j < 37 →
          validHeader3 (junk37Window.getD j 0) (junk37Window.getD (j + 1) 0)
            (junk37Window.getD (j + 2) 0) = false) ∧
        syncWindow junk37Window = junk37Window.drop 37)) ∧
    (findSyncOffset [1, 2, 3] = none ∧
      ((∀ j, j < ([1, 2, 3] : List Nat).length - 3 →
        validHeader3 (([1, 2, 3] : List Nat).getD j 0)
          (([1, 2, 3] : List Nat).getD (j + 1) 0)
          (([1, 2, 3] : List Nat).getD (j + 2) 0) = false) ∧
        syncWindow [1, 2, 3] = [1, 2, 3])) :=
  ⟨⟨by decide, sync_scan_correct.1 junk37Window 37 (by decide)⟩,
   ⟨by decide, sync_scan_correct.2.1 [1, 2, 3] (by decide)⟩⟩

/-- C1: the ICY de-interleaver.  (i) While `bytesUntilMeta > 0`, a chunk
step forwards exactly `min remaining bytesUntilMeta` bytes to the audio
sink, in order, and decrements the counter by that amount.  (ii) When
the counter is 0, the next byte is the length byte; L = 0 yields
zero-length metadata and audio resumes immediately with the counter
reset to N.  (iii) For L > 0 with the full `L*16` metadata bytes in the
chunk, those bytes are consumed by the parser (never forwarded) and the
counter resets to N.  (iv) Concretely, for icy-metaint = 100 with the
frame `StreamTitle='A - B';` (L = 2, NUL-padded) at byte 100, the audio
sink receives exactly the non-metadata bytes in order and the parsed
title is `A - B`. -/
theorem icy_extractor_correct :
    (∀ (st : IcyState) (d : Nat) (rest : List Nat), 0 < st.bytesUntilMeta →
      icyLoop st (d :: rest) =
        ((icyLoop { st with bytesUntilMeta :=
              st.bytesUntilMeta - min (rest.length + 1) st.bytesUntilMeta }
            ((d :: rest).drop (min (rest.length + 1) st.bytesUntilMeta))).1,
         (d :: rest).take (min (rest.length + 1) st.bytesUntilMeta) ++
           (icyLoop { st with bytesUntilMeta :=
              st.bytesUntilMeta - min (rest.length + 1) st.bytesUntilMeta }
            ((d :: rest).drop (min (rest.length + 1) st.bytesUntilMeta))).2)) ∧
    (∀ (st : IcyState) (rest : List Nat), st.bytesUntilMeta = 0 →
      icyLoop st (0 :: rest) =
        icyLoop { st with bytesUntilMeta := st.icyMetaInt } rest) ∧
    (∀ (st : IcyState) (d : Nat) (rest : List Nat), st.bytesUntilMeta = 0 →
      0 < d → d * 16 ≤ rest.length →
      icyLoop st (d :: rest) =
        icyLoop { parse_icy_metadata st (rest.take (d * 16)) with
            bytesUntilMeta := st.icyMetaInt } (rest.drop (d * 16))) ∧
    ((icyLoop ⟨100, 100, []⟩ icyStream100).2 = audio100 ++ [201, 202] ∧
     (icyLoop ⟨100, 100, []⟩ icyStream100).1.streamTitle = titleAB) := by
  refine ⟨?_, ?_, ?_, by decide, by decide⟩
  · intro st d rest hbm
    simp only [icyLoop]
    simp only [List.length_cons]
    simp only [icyLoopF, if_pos hbm]
    simp only [List.length_cons]
    rw [icyLoopF_congr rest.length
      (((d :: rest).drop (min (rest.length + 1) st.bytesUntilMeta)).length)
      { st with bytesUntilMeta :=
          st.bytesUntilMeta - min (rest.length + 1) st.bytesUntilMeta }
      ((d :: rest).drop (min (rest.length + 1) st.bytesUntilMeta))
      (by simp only [List.length_drop, List.length_cons]; omega)
      (le_refl _)]
  · intro st rest h0
    simp only [icyLoop, List.length_cons, icyLoopF, h0]
    simp
  · intro st d rest h0 hd hfit
    simp only [icyLoop, List.length_cons, icyLoopF, h0]
    rw [if_neg (by omega : ¬d * 16 = 0), if_pos hfit]
    exact icyLoopF_congr rest.length _ _ _
      (by simp only [List.length_drop]; omega) (le_refl _)

/-- C1 witness: instantiation of the three conditional parts — a
two-byte countdown inside a three-byte chunk, an L = 0 length byte, and
a full 16-byte in-chunk metadata frame. -/
theorem icy_extractor_correct_witness :
    (0 < (⟨5, 2, []⟩ : IcyState).bytesUntilMeta ∧
      icyLoop ⟨5, 2, []⟩ [7, 8, 9] = (⟨5, 5, []⟩, [7, 8])) ∧
    ((⟨5, 0, []⟩ : IcyState).bytesUntilMeta = 0 ∧
      icyLoop ⟨5, 0, []⟩ [0, 3] = icyLoop ⟨5, 5, []⟩ [3]) ∧
    ((⟨4, 0, []⟩ : IcyState).bytesUntilMeta = 0 ∧ 0 < 1 ∧
      1 * 16 ≤ (List.replicate 16 0 ++ [42]).length ∧
      icyLoop ⟨4, 0, []⟩ (1 :: (List.replicate 16 0 ++ [42])) =
        icyLoop { parse_icy_metadata ⟨4, 0, []⟩
            ((List.replicate 16 0 ++ [42]).take (1 * 16)) with
          bytesUntilMeta := 4 } ((List.replicate 16 0 ++ [42]).drop (1 * 16))) := by
  refine ⟨⟨by decide, ?_⟩, ⟨by decide, ?_⟩, by decide, by decide, by decide, ?_⟩
  · rw [icy_extractor_correct.1 ⟨5, 2, []⟩ 7 [8, 9] (by decide)]
    decide
  · exact icy_extractor_correct.2.1 ⟨5, 0, []⟩ [3] (by decide)
  · exact icy_extractor_correct.2.2.1 ⟨4, 0, []⟩ 1 (List.replicate 16 0 ++ [42])
      (by decide) (by decide) (by decide)

/-- C7 counterexample to the claim as stated.  Stream with
icy-metaint = 4: chunk 1 is 4 audio bytes, the length byte L = 1, and
only the first of the 16 metadata bytes (value 88); chunk 2 holds the
remaining fifteen 88s and the real audio [5, 6, 7, 8].  The claim says
all 16 metadata bytes are discarded and de-interleaving resumes at the
next interval (so chunk 2 should contribute [5, 6, 7, 8]).  Actually
the handler resets `bytesUntilMeta` at the chunk boundary, so chunk 2
forwards the metadata bytes [88, 88, 88, 88] to the audio sink — and
then misreads a 88 as a length byte, discarding the real audio. -/
theorem split_metadata_counterexample :
    (icyLoop ⟨4, 4, []⟩ [1, 2, 3, 4, 1, 88]).2 = [1, 2, 3, 4] ∧
    (icyLoop ⟨4, 4, []⟩ [1, 2, 3, 4, 1, 88]).1 = ⟨4, 4, []⟩ ∧
    (icyLoop (icyLoop ⟨4, 4, []⟩ [1, 2, 3, 4, 1, 88]).1
      (List.replicate 15 88 ++ [5, 6, 7, 8])).2 = [88, 88, 88, 88] ∧
    ([88, 88, 88, 88] : List Nat) ≠ [5, 6, 7, 8] := by
  decide

/-- C7 (amended): when a metadata frame of length L*16 (L > 0) does not
fit in the current chunk, the extractor discards only the metadata bytes
present in that chunk — it forwards no further audio from it, leaves the
title unchanged, logs a warning, and resets the interval counter at the
chunk boundary.  The metadata bytes spilling into the next chunk are NOT
reconstructed or skipped: the next chunk is consumed as if it started a
fresh audio interval, so its leading bytes (the metadata remainder) are
forwarded to the audio sink as audio. -/
theorem split_metadata_behavior :
    (∀ (st : IcyState) (d : Nat) (rest : List Nat),
      st.bytesUntilMeta = 0 → 0 < d → rest.length < d * 16 →
      icyLoop st (d :: rest) =
        ({ st with bytesUntilMeta := st.icyMetaInt }, [])) ∧
    (∀ (st : IcyState) (c : Nat) (cs : List Nat), 0 < st.bytesUntilMeta →
      ((icyLoop st (c :: cs)).2).take (min (cs.length + 1) st.bytesUntilMeta) =
        (c :: cs).take (min (cs.length + 1) st.bytesUntilMeta)) := by
  constructor
  · intro st d rest h0 hd hspan
    simp only [icyLoop, List.length_cons, icyLoopF, h0]
    rw [if_neg (by omega : ¬d * 16 = 0),
      if_neg (by omega : ¬d * 16 ≤ rest.length), if_neg (lt_irrefl 0)]
  · intro st c cs hbm
    simp only [icyLoop, List.length_cons, icyLoopF, if_pos hbm]
    refine List.take_left' ?_
    rw [List.length_take, List.length_cons]
    omega

/-- C7 witness: a one-byte chunk remainder after the length byte L = 1
(metadata longer than the chunk), and a chunk consumed while the counter
is positive. -/
theorem split_metadata_behavior_witness :
    ((⟨4, 0, []⟩ : IcyState).bytesUntilMeta = 0 ∧ 0 < 1 ∧
      ([9] : List Nat).length < 1 * 16 ∧
      icyLoop ⟨4, 0, []⟩ [1, 9] = (⟨4, 4, []⟩, [])) ∧
    (0 < (⟨4, 2, []⟩ : IcyState).bytesUntilMeta ∧
      ((icyLoop ⟨4, 2, []⟩ [11, 12, 13]).2).take 2 = [11, 12]) :=
  ⟨⟨by decide, by decide, by decide,
    split_metadata_behavior.1 ⟨4, 0, []⟩ 1 [9] (by decide) (by decide)
      (by decide)⟩,
   ⟨by decide,
    split_metadata_behavior.2 ⟨4, 2, []⟩ 11 [12, 13] (by decide)⟩⟩

end WebRadio
